import Mathlib

/-!
Shallow embedding of dr_wav.h (single-file WAV decoder) and verification of
its natural-language specification.

Modelling conventions, stated once here and referenced from the definitions:

* Machine integers are modelled as Nat (unsigned) or Int (signed) with an
  explicit reduction modulo 2 ^ w exactly at the places where the C
  computation can wrap for C-representable inputs.
* The byte source of the open path is modelled as the in-memory source of
  drwav_open_memory: a list of bytes, where a read of n bytes yields
  min n remaining bytes and a relative forward seek of n bytes drops
  min n remaining bytes (drwav__on_read_memory / drwav__on_seek_memory both
  clamp at the end of the buffer and the seek always reports success).
* The byte source of the post-open read/seek path is kept abstract: a state
  type sigma together with a read callback (returning the byte count
  obtained) and a seek callback (returning a success flag), mirroring
  drwav_read_proc / drwav_seek_proc.
* Sample converters that end in a division by a power of two are modelled
  with values in the rationals.  Every dividend produced by the a-law,
  u-law and 16-bit paths has magnitude below 2 ^ 24 and the divisors are
  2 ^ 15 or 2 ^ 31, so the binary32 arithmetic of the C code is exact and
  the rational model is faithful there.
-/

/-- Little-endian 16-bit read, the little-endian-host branch of
drwav__read_u16.  Bytes are unsigned char, modelled by reducing mod 256. -/
def drwav__read_u16 (data : List Nat) : Nat :=
  data.getD 0 0 % 256 + data.getD 1 0 % 256 * 256

/-- Little-endian 32-bit read, the little-endian-host branch of
drwav__read_u32. -/
def drwav__read_u32 (data : List Nat) : Nat :=
  data.getD 0 0 % 256 + data.getD 1 0 % 256 * 256 +
    data.getD 2 0 % 256 * 65536 + data.getD 3 0 % 256 * 16777216

/-- The drwav_fmt structure: the format chunk exactly as parsed. -/
structure drwav_fmt where
  formatTag : Nat
  channels : Nat
  sampleRate : Nat
  avgBytesPerSec : Nat
  blockAlign : Nat
  bitsPerSample : Nat
  extendedSize : Nat
  validBitsPerSample : Nat
  channelMask : Nat
  subFormat : List Nat
  deriving Repr, DecidableEq

/-- drwav__read_fmt over the in-memory byte source.  The input list is the
stream from the current position; on success the parsed drwav_fmt is
returned together with the remaining stream.  The declared-size-18 branch
returns the result of a 2-byte relative seek, which for the memory source
always succeeds; the C code leaves the extension fields uninitialised in
that branch, modelled here as zero. -/
def drwav__read_fmt (stream : List Nat) : Option (drwav_fmt × List Nat) :=
  if stream.length < 24 then none
  else if ¬(stream.getD 0 0 = 102 ∧ stream.getD 1 0 = 109 ∧
            stream.getD 2 0 = 116 ∧ stream.getD 3 0 = 32) then none
  else
    let chunkSize := drwav__read_u32 (stream.drop 4)
    if chunkSize < 16 then none
    else if ¬(chunkSize = 16 ∨ chunkSize = 18 ∨ chunkSize = 40) then none
    else
      let base : drwav_fmt :=
        { formatTag := drwav__read_u16 (stream.drop 8)
          channels := drwav__read_u16 (stream.drop 10)
          sampleRate := drwav__read_u32 (stream.drop 12)
          avgBytesPerSec := drwav__read_u32 (stream.drop 16)
          blockAlign := drwav__read_u16 (stream.drop 20)
          bitsPerSample := drwav__read_u16 (stream.drop 22)
          extendedSize := 0
          validBitsPerSample := 0
          channelMask := 0
          subFormat := List.replicate 16 0 }
      let rest := stream.drop 24
      if chunkSize = 16 then some (base, rest)
      else if chunkSize = 18 then some (base, rest.drop 2)
      else
        if rest.length < 2 then none
        else
          let cbSize := drwav__read_u16 rest
          if cbSize ≠ 22 then none
          else
            let rest2 := rest.drop 2
            if rest2.length < 22 then none
            else
              some ({ base with
                        extendedSize := cbSize
                        validBitsPerSample := drwav__read_u16 rest2
                        channelMask := drwav__read_u32 (rest2.drop 2)
                        subFormat := (rest2.drop 6).take 16 },
                    rest2.drop 22)

/-- INT_MAX, the bound on a single relative-seek offset. -/
def INT_MAX : Nat := 2147483647

/-- The chunked skip loop of drwav_open: seek forward by
bytesRemainingToSeek bytes, issuing relative seeks of at most INT_MAX
each, over the in-memory source (a forward seek is a drop). -/
def drwav__seek_forward (stream : List Nat) (bytesRemainingToSeek : Nat) :
    List Nat :=
  if bytesRemainingToSeek = 0 then stream
  else if bytesRemainingToSeek > INT_MAX then
    drwav__seek_forward (stream.drop INT_MAX) (bytesRemainingToSeek - INT_MAX)
  else stream.drop bytesRemainingToSeek
termination_by bytesRemainingToSeek
decreasing_by simp [INT_MAX]; omega

/-- The sequence of relative-seek magnitudes issued by the chunked seek
loops (both the chunk-skip loop of drwav_open and the loop of drwav_seek
split a large offset the same way): greedy chunks of INT_MAX. -/
def drwav__seek_offsets (r : Nat) : List Nat :=
  if r = 0 then []
  else if r > INT_MAX then INT_MAX :: drwav__seek_offsets (r - INT_MAX)
  else [r]
termination_by r
decreasing_by simp [INT_MAX]; omega

/-- The data-chunk scan loop of drwav_open over the in-memory source:
read an 8-byte chunk header; on the id "data" stop and return the declared
size with the stream positioned at the payload; otherwise skip the declared
size, plus one pad byte when that size is odd, via the chunked seek loop. -/
def drwav__find_data (stream : List Nat) : Option (Nat × List Nat) :=
  if h : stream.length < 8 then none
  else
    let dataSize := drwav__read_u32 (stream.drop 4)
    if stream.getD 0 0 = 100 ∧ stream.getD 1 0 = 97 ∧
       stream.getD 2 0 = 116 ∧ stream.getD 3 0 = 97 then
      some (dataSize, stream.drop 8)
    else
      let dataSize2 := if dataSize % 2 ≠ 0 then dataSize + 1 else dataSize
      drwav__find_data (drwav__seek_forward (stream.drop 8) dataSize2)
termination_by stream.length
decreasing_by
  have h8 : (stream.drop 8).length = stream.length - 8 := by
    simp [List.length_drop]
  have hle : ∀ (l : List Nat) (n : Nat),
      (drwav__seek_forward l n).length ≤ l.length := by
    intro l n
    induction n using Nat.strong_induction_on generalizing l with
    | _ n ih =>
      rw [drwav__seek_forward]
      split
      · exact le_rfl
      · split
        · exact le_trans (ih _ (by simp_all [INT_MAX]; omega) _)
            (by simp [List.length_drop])
        · simp [List.length_drop]
  calc (drwav__seek_forward (stream.drop 8) _).length
      ≤ (stream.drop 8).length := hle _ _
    _ < stream.length := by omega

/-- The drwav decoder state (the fields the core logic uses). -/
structure drwav where
  fmt : drwav_fmt
  sampleRate : Nat
  channels : Nat
  bitsPerSample : Nat
  bytesPerSample : Nat
  translatedFormatTag : Nat
  totalSampleCount : Nat
  bytesRemaining : Nat
  deriving Repr, DecidableEq

/-- drwav_open over the in-memory byte source: RIFF/WAVE header check,
format chunk parse, translated-format-tag derivation, data-chunk scan,
then construction of the decoder state.

The C code computes bytesPerSample as blockAlign / channels with no guard:
when channels = 0 this division is undefined behaviour in C; Lean's total
Nat division makes it 0 here (and likewise dataSize / 0 = 0 for
totalSampleCount).  No explicit failure occurs on that path. -/
def drwav_open (stream : List Nat) : Option drwav :=
  if stream.length < 12 then none
  else if ¬(stream.getD 0 0 = 82 ∧ stream.getD 1 0 = 73 ∧
            stream.getD 2 0 = 70 ∧ stream.getD 3 0 = 70) then none
  else if drwav__read_u32 (stream.drop 4) < 36 then none
  else if ¬(stream.getD 8 0 = 87 ∧ stream.getD 9 0 = 65 ∧
            stream.getD 10 0 = 86 ∧ stream.getD 11 0 = 69) then none
  else
    match drwav__read_fmt (stream.drop 12) with
    | none => none
    | some (fmt, rest) =>
      let translatedFormatTag :=
        if fmt.formatTag = 65534 then drwav__read_u16 fmt.subFormat
        else fmt.formatTag
      match drwav__find_data rest with
      | none => none
      | some (dataSize, _) =>
        let bytesPerSample := fmt.blockAlign / fmt.channels
        some { fmt := fmt
               sampleRate := fmt.sampleRate
               channels := fmt.channels
               bitsPerSample := fmt.bitsPerSample
               bytesPerSample := bytesPerSample
               translatedFormatTag := translatedFormatTag
               totalSampleCount := dataSize / bytesPerSample
               bytesRemaining := dataSize }

universe u

variable {σ : Type u}

/-- drwav_read_raw over an abstract byte source with state sigma: when the
request is nonzero, clamp the byte count to bytesRemaining, invoke the read
callback, and decrement bytesRemaining (a uint64_t, hence the wrap at
2 ^ 64) by the byte count the callback reported.  Returns the byte count
together with the updated decoder and source states. -/
def drwav_read_raw (onRead : σ → Nat → Nat × σ) (pWav : drwav) (s : σ)
    (bytesToRead : Nat) : Nat × drwav × σ :=
  if bytesToRead = 0 then (0, pWav, s)
  else
    let b := if bytesToRead > pWav.bytesRemaining then pWav.bytesRemaining
             else bytesToRead
    let r := onRead s b
    (r.1,
     { pWav with
         bytesRemaining :=
           (pWav.bytesRemaining + (2 ^ 64 - r.1 % 2 ^ 64)) % 2 ^ 64 },
     r.2)

/-- drwav_read over an abstract byte source: when the request is nonzero,
clamp samplesToRead to bufferOutSize / bytesPerSample, delegate to
drwav_read_raw for the corresponding byte count, and divide the byte count
obtained by bytesPerSample.  The division blockAlign-derived
bytesPerSample = 0 is undefined behaviour in C; Lean's total division
yields 0 there. -/
def drwav_read (onRead : σ → Nat → Nat × σ) (pWav : drwav) (s : σ)
    (samplesToRead bufferOutSize : Nat) : Nat × drwav × σ :=
  if samplesToRead = 0 then (0, pWav, s)
  else
    let maxSamples := bufferOutSize / pWav.bytesPerSample
    let samplesToRead2 := if samplesToRead > maxSamples then maxSamples
                          else samplesToRead
    let t := drwav_read_raw onRead pWav s (samplesToRead2 * pWav.bytesPerSample)
    (t.1 / pWav.bytesPerSample, t.2)

/-- The offset loop of drwav_seek: while offset bytes are outstanding,
issue a relative seek of min offset INT_MAX bytes times direction (the
boolean result of the callback is discarded, exactly as in the C code) and
subtract the signed step from bytesRemaining, a uint64_t (hence the
reduction of the signed value modulo 2 ^ 64). -/
def drwav_seek_loop (onSeek : σ → Int → Bool × σ) (s : σ)
    (bytesRemaining : Nat) (offset : Nat) (direction : Int) : Nat × σ :=
  if offset = 0 then (bytesRemaining, s)
  else
    let offset32 : Nat := if offset > INT_MAX then INT_MAX else offset
    let s2 := (onSeek s ((offset32 : Int) * direction)).2
    let br2 := (((bytesRemaining : Int) - (offset32 : Int) * direction) %
      (2 ^ 64 : Int)).toNat
    drwav_seek_loop onSeek s2 br2 (offset - offset32) direction
termination_by offset
decreasing_by simp only [INT_MAX]; split <;> omega

/-- drwav_seek over an abstract byte source: success as a no-op when
totalSampleCount = 0; otherwise clamp the target sample index, compute the
current byte position totalSampleCount * bytesPerSample - bytesRemaining
and the target byte position sample * bytesPerSample (both uint64_t, with
the corresponding wraps), derive the offset magnitude and direction, run
the chunked offset loop, and return success unconditionally. -/
def drwav_seek (onSeek : σ → Int → Bool × σ) (pWav : drwav) (s : σ)
    (sample : Nat) : Nat × drwav × σ :=
  if pWav.totalSampleCount = 0 then (1, pWav, s)
  else
    let sample2 := if sample ≥ pWav.totalSampleCount then
        pWav.totalSampleCount - 1 else sample
    let totalSizeInBytes := pWav.totalSampleCount * pWav.bytesPerSample % 2 ^ 64
    let currentBytePos :=
      (totalSizeInBytes + (2 ^ 64 - pWav.bytesRemaining % 2 ^ 64)) % 2 ^ 64
    let targetBytePos := sample2 * pWav.bytesPerSample % 2 ^ 64
    let od : Nat × Int :=
      if currentBytePos < targetBytePos then
        (targetBytePos - currentBytePos, 1)
      else
        (currentBytePos - targetBytePos, -1)
    let r := drwav_seek_loop onSeek s pWav.bytesRemaining od.1 od.2
    (1, { pWav with bytesRemaining := r.1 }, r.2)

/-- Reinterpretation of a 32-bit unsigned value as the signed int of the C
cast (two's complement). -/
def int32_of_u32 (n : Nat) : Int :=
  if n % 2 ^ 32 < 2 ^ 31 then (n % 2 ^ 32 : Nat) else (n % 2 ^ 32 : Nat) - 2 ^ 32

/-- Reinterpretation of a 16-bit unsigned value as a signed short. -/
def int16_of_u16 (n : Nat) : Int :=
  if n % 2 ^ 16 < 2 ^ 15 then (n % 2 ^ 16 : Nat) else (n % 2 ^ 16 : Nat) - 2 ^ 16

/-- The signed value t computed by one iteration of drwav_ulaw_to_f32,
from the source: complement the byte (as unsigned char), build t from the
low nibble and the segment bits, flip the bias by the complemented high
bit. -/
def drwav_ulaw_to_f32_int (b : Nat) : Int :=
  let u := 255 - b % 256
  let t : Nat := (((u &&& 0x0F) <<< 3) + 0x84) <<< ((u &&& 0x70) >>> 4)
  if u &&& 0x80 ≠ 0 then 0x84 - (t : Int) else (t : Int) - 0x84

/-- One sample of drwav_ulaw_to_f32: the signed value t divided by
32768. -/
def drwav_ulaw_to_f32_sample (b : Nat) : ℚ :=
  (drwav_ulaw_to_f32_int b : ℚ) / 32768

/-- The signed value t computed by one iteration of drwav_alaw_to_f32,
from the source: XOR the byte with 0x55, build t from the low nibble
shifted into bits 4 to 7, add the bias 8 for segment 0 and otherwise add
0x108 and shift by segment minus 1, negate when bit 7 of the decoded byte
is clear. -/
def drwav_alaw_to_f32_int (b : Nat) : Int :=
  let a := b % 256 ^^^ 0x55
  let t0 := (a &&& 0x0F) <<< 4
  let s := (a &&& 0x70) >>> 4
  let t1 := if s = 0 then t0 + 8 else (t0 + 0x108) <<< (s - 1)
  if a &&& 0x80 = 0 then -(t1 : Int) else (t1 : Int)

/-- One sample of drwav_alaw_to_f32: the signed value t divided by
32768. -/
def drwav_alaw_to_f32_sample (b : Nat) : ℚ :=
  (drwav_alaw_to_f32_int b : ℚ) / 32768

/-- drwav_ulaw_to_f32 at the value level: one float per input byte. -/
def drwav_ulaw_to_f32 (ulaw : List Nat) : List ℚ :=
  ulaw.map drwav_ulaw_to_f32_sample

/-- drwav_alaw_to_f32 at the value level: one float per input byte. -/
def drwav_alaw_to_f32 (alaw : List Nat) : List ℚ :=
  alaw.map drwav_alaw_to_f32_sample

/-- Modelled from the spec (section 4.4): the closed-form mu-law formula.
Complement the encoded byte; extract the 4-bit mantissa and the 3-bit
segment; magnitude = ((mantissa shifted left 3) + 0x84) shifted left by
segment; subtract the magnitude from 0x84 when the sign bit of the
complemented byte is set, else subtract 0x84 from the magnitude; divide by
32768. -/
def ulaw_spec_int (b : Nat) : Int :=
  let u := b % 256 ^^^ 0xFF
  let mantissa := u &&& 0x0F
  let segment := (u >>> 4) &&& 0x7
  let magnitude := ((mantissa <<< 3) + 0x84) <<< segment
  if u &&& 0x80 ≠ 0 then 0x84 - (magnitude : Int)
  else (magnitude : Int) - 0x84

/-- Modelled from the spec (section 4.4): the mu-law closed form divided
by 32768. -/
def ulaw_spec_formula (b : Nat) : ℚ :=
  (ulaw_spec_int b : ℚ) / 32768

/-- Modelled from the spec (section 4.4): the closed-form a-law formula.
XOR the encoded byte with 0x55; the 4-bit mantissa is shifted into bits 4
to 7; segment 0 adds a bias of 8; a positive segment adds a bias of 0x108
and shifts left by segment minus 1; the sign comes from bit 7 of the
original encoded byte (clear means negative); divide by 32768. -/
def alaw_spec_int (b : Nat) : Int :=
  let a := b % 256 ^^^ 0x55
  let mantissa := a &&& 0x0F
  let segment := (a >>> 4) &&& 0x7
  let magnitude := if segment = 0 then (mantissa <<< 4) + 8
                   else ((mantissa <<< 4) + 0x108) <<< (segment - 1)
  if b % 256 &&& 0x80 = 0 then -(magnitude : Int)
  else (magnitude : Int)

/-- Modelled from the spec (section 4.4): the a-law closed form divided by
32768. -/
def alaw_spec_formula (b : Nat) : ℚ :=
  (alaw_spec_int b : ℚ) / 32768

/-- drwav_u8PCM_to_f32 at the value level: (value / 255) * 2 - 1.  The C
code divides by 255.0f in binary32; the rational model is the real-valued
reading of that formula. -/
def drwav_u8PCM_to_f32 (totalSampleCount : Nat) (u8PCM : List Nat) : List ℚ :=
  (List.range totalSampleCount).map
    (fun i => (u8PCM.getD i 0 % 256 : ℚ) / 255 * 2 - 1)

/-- drwav_s16PCM_to_f32 at the value level: value / 32768. -/
def drwav_s16PCM_to_f32 (s16PCM : List Int) : List ℚ :=
  s16PCM.map (fun v => (v : ℚ) / 32768)

/-- drwav_s24PCM_to_f32 at the value level: place the three bytes of each
sample at bits 8 to 31, reinterpret as a signed 32-bit integer, divide by
2147483648. -/
def drwav_s24PCM_to_f32 (totalSampleCount : Nat) (s24PCM : List Nat) : List ℚ :=
  (List.range totalSampleCount).map (fun i =>
    let s0 := s24PCM.getD (i * 3) 0 % 256
    let s1 := s24PCM.getD (i * 3 + 1) 0 % 256
    let s2 := s24PCM.getD (i * 3 + 2) 0 % 256
    (int32_of_u32 ((s0 <<< 8) ||| (s1 <<< 16) ||| (s2 <<< 24)) : ℚ) / 2147483648)

/-- drwav_s32PCM_to_f32 at the value level: value / 2147483648. -/
def drwav_s32PCM_to_f32 (s32PCM : List Int) : List ℚ :=
  s32PCM.map (fun v => (v : ℚ) / 2147483648)

/-- The initial shift of the generic loop of drwav__pcm_to_f32:
(8 - bytesPerSample) * 8 computed in int and stored in an unsigned int,
hence reduced modulo 2 ^ 32. -/
def drwav__pcm_to_f32_shift0 (bytesPerSample : Nat) : Nat :=
  ((((8 : Int) - bytesPerSample) * 8) % (2 ^ 32 : Int)).toNat

/-- The accumulation loop of the generic branch of drwav__pcm_to_f32: for
j below both bytesPerSample and 4, OR byte j shifted left by the running
shift into the 32-bit accumulator, then advance the shift by 8.  The C
left shift of an unsigned int by 32 or more is undefined behaviour; this
model gives it value semantics, multiplying by the power of two and
truncating to 32 bits, so such a term contributes 0. -/
def drwav__pcm_to_f32_loop (pPCM : List Nat) (bytesPerSample : Nat)
    (j sample shift : Nat) : Nat :=
  if j < bytesPerSample ∧ j < 4 then
    drwav__pcm_to_f32_loop pPCM bytesPerSample (j + 1)
      (sample ||| (pPCM.getD j 0 % 256 <<< shift) % 2 ^ 32)
      ((shift + 8) % 2 ^ 32)
  else sample
termination_by 4 - j
decreasing_by omega

/-- One sample of the generic branch of drwav__pcm_to_f32: run the
accumulation loop from shift0, reinterpret the accumulator as a signed
32-bit integer, divide by 2147483648. -/
def drwav__pcm_to_f32_generic_sample (pPCM : List Nat)
    (bytesPerSample : Nat) : ℚ :=
  (int32_of_u32
      (drwav__pcm_to_f32_loop pPCM bytesPerSample 0 0
        (drwav__pcm_to_f32_shift0 bytesPerSample)) : ℚ) / 2147483648

/-- drwav__pcm_to_f32 at the value level: dispatch on bytesPerSample to
the unsigned-8, signed-16, signed-24 and signed-32 converters (the C
pointer reinterpretations become little-endian decodes), and otherwise run
the generic per-sample accumulation over each sample's bytes. -/
def drwav__pcm_to_f32 (totalSampleCount : Nat) (pPCM : List Nat)
    (bytesPerSample : Nat) : List ℚ :=
  if bytesPerSample = 1 then drwav_u8PCM_to_f32 totalSampleCount pPCM
  else if bytesPerSample = 2 then
    drwav_s16PCM_to_f32 ((List.range totalSampleCount).map
      (fun i => int16_of_u16 (drwav__read_u16 (pPCM.drop (2 * i)))))
  else if bytesPerSample = 3 then drwav_s24PCM_to_f32 totalSampleCount pPCM
  else if bytesPerSample = 4 then
    drwav_s32PCM_to_f32 ((List.range totalSampleCount).map
      (fun i => int32_of_u32 (drwav__read_u32 (pPCM.drop (4 * i)))))
  else
    (List.range totalSampleCount).map
      (fun i => drwav__pcm_to_f32_generic_sample
        (pPCM.drop (i * bytesPerSample)) bytesPerSample)

/-- Modelled from the spec (section 4.4, generic fallback): one sample as
the closed form, byte j (for j below min bytesPerSample 4) contributing at
shift (8 - bytesPerSample) * 8 + 8 * j in unsigned-int arithmetic, the
accumulator truncated to 32 bits, reinterpreted as signed, divided by
2147483648. -/
def pcm_generic_spec_sample (pPCM : List Nat) (bytesPerSample : Nat) : ℚ :=
  let sample := (List.range (min bytesPerSample 4)).foldl
    (fun acc j =>
      acc |||
        (pPCM.getD j 0 % 256 <<<
            ((((8 : Int) - bytesPerSample) * 8 + 8 * j) % (2 ^ 32 : Int)).toNat)
          % 2 ^ 32)
    0
  (int32_of_u32 sample : ℚ) / 2147483648

/-- A rational is exactly representable as an IEEE binary32 value (in the
combined normal and subnormal range): it is m * 2 ^ (-e) with mantissa
magnitude at most 2 ^ 24 and exponent at most 149. -/
def representable_f32 (q : ℚ) : Prop :=
  ∃ (m : Int) (e : Nat), |m| ≤ 2 ^ 24 ∧ e ≤ 149 ∧ q * 2 ^ e = m

set_option maxRecDepth 10000 in
/-- C3: for every one of the 256 possible input byte values, the values
produced by drwav_alaw_to_f32 and drwav_ulaw_to_f32 equal the closed-form
formulas of spec section 4.4 (mu-law: complement, magnitude
((mantissa shifted left 3) + 0x84) shifted left by segment, bias flip on
the sign bit, division by 32768; a-law: XOR 0x55 decode, biases 8 and
0x108, sign from bit 7 of the encoded byte). -/
theorem drwav_companding_matches_spec_formulas :
    ∀ b : Fin 256,
      drwav_ulaw_to_f32_sample b = ulaw_spec_formula b ∧
      drwav_alaw_to_f32_sample b = alaw_spec_formula b := by
  have h : ∀ b : Fin 256,
      drwav_ulaw_to_f32_int b = ulaw_spec_int b ∧
      drwav_alaw_to_f32_int b = alaw_spec_int b := by decide
  intro b
  constructor
  · simp only [drwav_ulaw_to_f32_sample, ulaw_spec_formula, (h b).1]
  · simp only [drwav_alaw_to_f32_sample, alaw_spec_formula, (h b).2]

/-- C8: drwav_s16PCM_to_f32 maps each sample value to value / 32768, and
at the extremal inputs -32768 and 32767 the produced values are exactly
-1 and 32767 / 32768, both exactly representable in binary32. -/
theorem drwav_s16PCM_to_f32_extremes_exact :
    (∀ l : List Int, drwav_s16PCM_to_f32 l = l.map (fun v => (v : ℚ) / 32768)) ∧
    drwav_s16PCM_to_f32 [-32768, 32767] = [-1, 32767 / 32768] ∧
    representable_f32 (-1) ∧ representable_f32 (32767 / 32768) := by
  refine ⟨fun l => rfl, ?_, ⟨-1, 0, by norm_num⟩, ⟨32767, 15, by norm_num⟩⟩
  simp only [drwav_s16PCM_to_f32, List.map]
  norm_num

lemma drwav__pcm_to_f32_loop_eq_foldl (p : List Nat) (bps : Nat) :
    ∀ n j acc, n = min bps 4 - j →
      drwav__pcm_to_f32_loop p bps j acc
          ((((8 : Int) - bps) * 8 + 8 * j) % (2 ^ 32 : Int)).toNat =
        (List.range' j n).foldl
          (fun a k => a ||| (p.getD k 0 % 256 <<<
              ((((8 : Int) - bps) * 8 + 8 * k) % (2 ^ 32 : Int)).toNat) % 2 ^ 32)
          acc := by
  intro n
  induction n with
  | zero =>
    intro j acc h
    rw [drwav__pcm_to_f32_loop]
    have hc : ¬(j < bps ∧ j < 4) := by omega
    simp [hc, List.range']
  | succ n ih =>
    intro j acc h
    have hj : j < bps ∧ j < 4 := by omega
    rw [drwav__pcm_to_f32_loop, if_pos hj, List.range'_succ, List.foldl_cons]
    have hshift : (((((8 : Int) - bps) * 8 + 8 * j) % (2 ^ 32 : Int)).toNat + 8) % 2 ^ 32
        = ((((8 : Int) - bps) * 8 + 8 * (j + 1)) % (2 ^ 32 : Int)).toNat := by
      omega
    rw [hshift]
    exact ih (j + 1) _ (by omega)

lemma drwav__pcm_generic_sample_eq (p : List Nat) (bps : Nat) :
    drwav__pcm_to_f32_generic_sample p bps = pcm_generic_spec_sample p bps := by
  unfold drwav__pcm_to_f32_generic_sample pcm_generic_spec_sample
    drwav__pcm_to_f32_shift0
  have h := drwav__pcm_to_f32_loop_eq_foldl p bps (min bps 4) 0 0 (by omega)
  simp only [Nat.cast_zero, mul_zero, add_zero] at h
  rw [h, List.range_eq_range']

/-- C6: for every bytesPerSample not in one of 1, 2, 3, 4, the generic
fallback of drwav__pcm_to_f32 produces, for each sample, the accumulation
of up to 4 leading bytes into a 32-bit value at the successive shifts
(8 - bytesPerSample) * 8 + 8 * j (in unsigned-int arithmetic, a shift of
32 or more contributing nothing), bytes beyond the fourth ignored,
reinterpreted as a signed 32-bit integer and divided by 2147483648. -/
theorem drwav__pcm_to_f32_generic_matches_spec (bytesPerSample : Nat)
    (h : bytesPerSample ≠ 1 ∧ bytesPerSample ≠ 2 ∧ bytesPerSample ≠ 3 ∧
      bytesPerSample ≠ 4)
    (totalSampleCount : Nat) (pPCM : List Nat) :
    drwav__pcm_to_f32 totalSampleCount pPCM bytesPerSample =
      (List.range totalSampleCount).map
        (fun i => pcm_generic_spec_sample (pPCM.drop (i * bytesPerSample))
          bytesPerSample) := by
  obtain ⟨h1, h2, h3, h4⟩ := h
  unfold drwav__pcm_to_f32
  simp only [h1, h2, h3, h4, if_false, drwav__pcm_generic_sample_eq]

/-- Witness for C6: the theorem applied at bytesPerSample = 5 on a
concrete two-sample buffer. -/
theorem drwav__pcm_to_f32_generic_matches_spec_witness :
    ((5 : Nat) ≠ 1 ∧ (5 : Nat) ≠ 2 ∧ (5 : Nat) ≠ 3 ∧ (5 : Nat) ≠ 4) ∧
    drwav__pcm_to_f32 2 [1, 2, 3, 4, 5, 6, 7, 8, 9, 10] 5 =
      (List.range 2).map (fun i =>
        pcm_generic_spec_sample
          (([1, 2, 3, 4, 5, 6, 7, 8, 9, 10] : List Nat).drop (i * 5)) 5) :=
  ⟨by decide, drwav__pcm_to_f32_generic_matches_spec 5 (by decide) 2 _⟩

/-- The byte count drwav_read hands to drwav_read_raw: samplesToRead
clamped to the whole samples the destination can hold, times
bytesPerSample. -/
def drwav_read_request (pWav : drwav) (samplesToRead bufferOutSize : Nat) : Nat :=
  min samplesToRead (bufferOutSize / pWav.bytesPerSample) * pWav.bytesPerSample

/-- The byte count drwav_read_raw passes to the read callback: the request
clamped to bytesRemaining. -/
def drwav_raw_request (pWav : drwav) (bytesToRead : Nat) : Nat :=
  min bytesToRead pWav.bytesRemaining

lemma min_mul_div (c R bps : Nat) (hbps : 0 < bps) :
    min (c * bps) R / bps = min c (R / bps) := by
  rcases le_total (c * bps) R with h | h
  · rw [min_eq_left h, Nat.mul_div_cancel _ hbps,
      min_eq_left ((Nat.le_div_iff_mul_le hbps).mpr h)]
  · rw [min_eq_right h]
    have h2 : R / bps ≤ c := by
      have h3 : R / bps ≤ c * bps / bps := Nat.div_le_div_right h
      rwa [Nat.mul_div_cancel _ hbps] at h3
    rw [min_eq_right h2]

/-- C1: drwav_read computes the whole samples the destination can hold as
bufferOutSize / bytesPerSample, clamps samplesToRead to that, issues a raw
read of that many samples times bytesPerSample bytes (which drwav_read_raw
clamps to bytesRemaining before invoking the callback), returns the byte
count obtained divided by bytesPerSample (so the returned count is clamped
independently to the remaining whole samples when the callback delivers
everything), and discards partial-sample bytes from the returned count
while still consuming them from bytesRemaining. -/
theorem drwav_read_clamps_and_floors {σ : Type u} (onRead : σ → Nat → Nat × σ)
    (pWav : drwav) (s : σ) (samplesToRead bufferOutSize : Nat)
    (hbps : 0 < pWav.bytesPerSample)
    (hn : 0 < samplesToRead)
    (hbuf : pWav.bytesPerSample ≤ bufferOutSize)
    (hR : pWav.bytesRemaining < 2 ^ 64)
    (hread :
      (onRead s (drwav_raw_request pWav
          (drwav_read_request pWav samplesToRead bufferOutSize))).1 ≤
        drwav_raw_request pWav
          (drwav_read_request pWav samplesToRead bufferOutSize)) :
    drwav_read onRead pWav s samplesToRead bufferOutSize =
      ((onRead s (drwav_raw_request pWav
          (drwav_read_request pWav samplesToRead bufferOutSize))).1 /
            pWav.bytesPerSample,
       { pWav with
           bytesRemaining := pWav.bytesRemaining -
             (onRead s (drwav_raw_request pWav
               (drwav_read_request pWav samplesToRead bufferOutSize))).1 },
       (onRead s (drwav_raw_request pWav
          (drwav_read_request pWav samplesToRead bufferOutSize))).2) ∧
    (drwav_read onRead pWav s samplesToRead bufferOutSize).1 *
        pWav.bytesPerSample ≤
      (onRead s (drwav_raw_request pWav
          (drwav_read_request pWav samplesToRead bufferOutSize))).1 ∧
    ((onRead s (drwav_raw_request pWav
          (drwav_read_request pWav samplesToRead bufferOutSize))).1 =
        drwav_raw_request pWav
          (drwav_read_request pWav samplesToRead bufferOutSize) →
      (drwav_read onRead pWav s samplesToRead bufferOutSize).1 =
        min samplesToRead (min (bufferOutSize / pWav.bytesPerSample)
          (pWav.bytesRemaining / pWav.bytesPerSample))) := by
  set B := drwav_raw_request pWav
    (drwav_read_request pWav samplesToRead bufferOutSize) with hB
  set r := (onRead s B).1 with hr
  have hreqpos : 0 < drwav_read_request pWav samplesToRead bufferOutSize := by
    unfold drwav_read_request
    exact Nat.mul_pos (lt_min hn (Nat.div_pos hbuf hbps)) hbps
  have hBle : B ≤ pWav.bytesRemaining := by
    rw [hB]; exact min_le_right _ _
  have hkey : drwav_read onRead pWav s samplesToRead bufferOutSize =
      (r / pWav.bytesPerSample,
       { pWav with bytesRemaining := pWav.bytesRemaining - r },
       (onRead s B).2) := by
    unfold drwav_read drwav_read_raw
    rw [if_neg (by omega)]
    have hmin : (if samplesToRead > bufferOutSize / pWav.bytesPerSample
        then bufferOutSize / pWav.bytesPerSample else samplesToRead) =
        min samplesToRead (bufferOutSize / pWav.bytesPerSample) := by
      split <;> omega
    simp only [hmin]
    rw [if_neg (by
      intro hz
      exact absurd hz (by unfold drwav_read_request at hreqpos; omega))]
    have hmin2 : (if min samplesToRead (bufferOutSize / pWav.bytesPerSample) *
          pWav.bytesPerSample > pWav.bytesRemaining then pWav.bytesRemaining
        else min samplesToRead (bufferOutSize / pWav.bytesPerSample) *
          pWav.bytesPerSample) = B := by
      rw [hB]; unfold drwav_raw_request drwav_read_request
      split <;> omega
    simp only [hmin2]
    have hsub : (pWav.bytesRemaining + (2 ^ 64 - r % 2 ^ 64)) % 2 ^ 64 =
        pWav.bytesRemaining - r := by omega
    rw [hsub]
  refine ⟨hkey, ?_, ?_⟩
  · rw [hkey]
    exact Nat.div_mul_le_self r pWav.bytesPerSample
  · intro hfull
    rw [hkey]
    simp only
    rw [hfull, hB]
    unfold drwav_raw_request drwav_read_request
    rw [min_mul_div _ _ _ hbps, min_assoc]

/-- Witness for C1: the theorem applied to a concrete decoder with
bytesPerSample 2 and bytesRemaining 5, a full-delivery callback, a request
of 10 samples and a 20-byte destination: 2 whole samples come back and the
partial byte is consumed but not counted. -/
theorem drwav_read_clamps_and_floors_witness :
    drwav_read (fun (u : Unit) k => (k, u))
        { fmt := { formatTag := 1, channels := 1, sampleRate := 44100,
                   avgBytesPerSec := 88200, blockAlign := 2,
                   bitsPerSample := 16, extendedSize := 0,
                   validBitsPerSample := 0, channelMask := 0,
                   subFormat := List.replicate 16 0 },
          sampleRate := 44100, channels := 1, bitsPerSample := 16,
          bytesPerSample := 2, translatedFormatTag := 1,
          totalSampleCount := 2, bytesRemaining := 5 } () 10 20 =
      (2, { fmt := { formatTag := 1, channels := 1, sampleRate := 44100,
                     avgBytesPerSec := 88200, blockAlign := 2,
                     bitsPerSample := 16, extendedSize := 0,
                     validBitsPerSample := 0, channelMask := 0,
                     subFormat := List.replicate 16 0 },
            sampleRate := 44100, channels := 1, bitsPerSample := 16,
            bytesPerSample := 2, translatedFormatTag := 1,
            totalSampleCount := 2, bytesRemaining := 0 }, ()) := by
  have h := drwav_read_clamps_and_floors (fun (u : Unit) k => (k, u))
    { fmt := { formatTag := 1, channels := 1, sampleRate := 44100,
               avgBytesPerSec := 88200, blockAlign := 2,
               bitsPerSample := 16, extendedSize := 0,
               validBitsPerSample := 0, channelMask := 0,
               subFormat := List.replicate 16 0 },
      sampleRate := 44100, channels := 1, bitsPerSample := 16,
      bytesPerSample := 2, translatedFormatTag := 1,
      totalSampleCount := 2, bytesRemaining := 5 } () 10 20
    (by decide) (by decide) (by decide) (by decide)
    (by unfold drwav_raw_request drwav_read_request; decide)
  rw [h.1]
  unfold drwav_raw_request drwav_read_request
  decide

/-- A post-open read operation: a raw byte read or a typed sample read. -/
inductive drwav_op where
  | raw (bytesToRead : Nat)
  | typed (samplesToRead bufferOutSize : Nat)
  deriving Repr, DecidableEq

/-- Run one read operation, keeping the decoder and source states. -/
def drwav_run_op (onRead : σ → Nat → Nat × σ) (pWav : drwav) (s : σ) :
    drwav_op → drwav × σ
  | drwav_op.raw n => (drwav_read_raw onRead pWav s n).2
  | drwav_op.typed n b => (drwav_read onRead pWav s n b).2

/-- Run a sequence of read operations. -/
def drwav_run_ops (onRead : σ → Nat → Nat × σ) :
    drwav → σ → List drwav_op → drwav × σ
  | w, s, [] => (w, s)
  | w, s, op :: ops =>
    drwav_run_ops onRead (drwav_run_op onRead w s op).1
      (drwav_run_op onRead w s op).2 ops

lemma drwav_read_raw_zero (onRead : σ → Nat → Nat × σ) (w : drwav) (s : σ) :
    drwav_read_raw onRead w s 0 = (0, w, s) := by
  unfold drwav_read_raw
  simp

lemma drwav_read_raw_eq (onRead : σ → Nat → Nat × σ) (w : drwav) (s : σ)
    (n : Nat) (h : n ≠ 0) :
    drwav_read_raw onRead w s n =
      ((onRead s (min n w.bytesRemaining)).1,
       { w with
           bytesRemaining := (w.bytesRemaining +
             (2 ^ 64 - (onRead s (min n w.bytesRemaining)).1 % 2 ^ 64)) %
               2 ^ 64 },
       (onRead s (min n w.bytesRemaining)).2) := by
  unfold drwav_read_raw
  rw [if_neg h]
  have hm : (if n > w.bytesRemaining then w.bytesRemaining else n) =
      min n w.bytesRemaining := by split <;> omega
  rw [hm]

lemma drwav_read_raw_bytesRemaining_le (onRead : σ → Nat → Nat × σ)
    (hread : ∀ t n, (onRead t n).1 ≤ n) (w : drwav) (s : σ) (n : Nat)
    (hR : w.bytesRemaining < 2 ^ 64) :
    (drwav_read_raw onRead w s n).2.1.bytesRemaining ≤ w.bytesRemaining := by
  rcases Nat.eq_zero_or_pos n with h | h
  · subst h
    rw [drwav_read_raw_zero]
  · rw [drwav_read_raw_eq onRead w s n (by omega)]
    show (w.bytesRemaining +
        (2 ^ 64 - (onRead s (min n w.bytesRemaining)).1 % 2 ^ 64)) % 2 ^ 64 ≤
      w.bytesRemaining
    have h1 := hread s (min n w.bytesRemaining)
    have h2 : min n w.bytesRemaining ≤ w.bytesRemaining := min_le_right _ _
    omega

lemma drwav_run_op_bytesRemaining_le (onRead : σ → Nat → Nat × σ)
    (hread : ∀ t n, (onRead t n).1 ≤ n) (w : drwav) (s : σ) (op : drwav_op)
    (hR : w.bytesRemaining < 2 ^ 64) :
    (drwav_run_op onRead w s op).1.bytesRemaining ≤ w.bytesRemaining := by
  cases op with
  | raw n => exact drwav_read_raw_bytesRemaining_le onRead hread w s n hR
  | typed n b =>
    show (drwav_read onRead w s n b).2.1.bytesRemaining ≤ w.bytesRemaining
    unfold drwav_read
    split
    · exact le_rfl
    · exact drwav_read_raw_bytesRemaining_le onRead hread w s _ hR

/-- C7: assuming the read callback returns at most the requested byte
count, bytesRemaining never increases across any sequence of drwav_read_raw
and drwav_read calls, and stays bounded by the data chunk size it started
from (it is a Nat, so it never goes below 0). -/
theorem drwav_read_bytesRemaining_monotone (onRead : σ → Nat → Nat × σ)
    (hread : ∀ t n, (onRead t n).1 ≤ n)
    (dataChunkSize : Nat) (hD : dataChunkSize < 2 ^ 64) :
    ∀ (ops : List drwav_op) (w : drwav) (s : σ),
      w.bytesRemaining ≤ dataChunkSize →
      (drwav_run_ops onRead w s ops).1.bytesRemaining ≤ w.bytesRemaining ∧
      (drwav_run_ops onRead w s ops).1.bytesRemaining ≤ dataChunkSize := by
  intro ops
  induction ops with
  | nil => intro w s h; exact ⟨le_rfl, h⟩
  | cons op ops ih =>
    intro w s h
    have hstep := drwav_run_op_bytesRemaining_le onRead hread w s op (by omega)
    have hrec := ih (drwav_run_op onRead w s op).1 (drwav_run_op onRead w s op).2
      (by omega)
    exact ⟨le_trans hrec.1 hstep, hrec.2⟩

/-- Witness for C7: the theorem applied to a concrete decoder with
bytesRemaining 5 and a full-delivery callback over a raw read then a typed
read. -/
theorem drwav_read_bytesRemaining_monotone_witness :
    (drwav_run_ops (fun (u : Unit) k => (k, u))
        { fmt := { formatTag := 1, channels := 1, sampleRate := 44100,
                   avgBytesPerSec := 88200, blockAlign := 2,
                   bitsPerSample := 16, extendedSize := 0,
                   validBitsPerSample := 0, channelMask := 0,
                   subFormat := List.replicate 16 0 },
          sampleRate := 44100, channels := 1, bitsPerSample := 16,
          bytesPerSample := 2, translatedFormatTag := 1,
          totalSampleCount := 2, bytesRemaining := 5 } ()
        [drwav_op.raw 3, drwav_op.typed 2 4]).1.bytesRemaining ≤ 5 ∧
    (drwav_run_ops (fun (u : Unit) k => (k, u))
        { fmt := { formatTag := 1, channels := 1, sampleRate := 44100,
                   avgBytesPerSec := 88200, blockAlign := 2,
                   bitsPerSample := 16, extendedSize := 0,
                   validBitsPerSample := 0, channelMask := 0,
                   subFormat := List.replicate 16 0 },
          sampleRate := 44100, channels := 1, bitsPerSample := 16,
          bytesPerSample := 2, translatedFormatTag := 1,
          totalSampleCount := 2, bytesRemaining := 5 } ()
        [drwav_op.raw 3, drwav_op.typed 2 4]).1.bytesRemaining ≤ 5 :=
  drwav_read_bytesRemaining_monotone (fun (u : Unit) k => (k, u))
    (fun _ _ => le_rfl) 5 (by decide)
    [drwav_op.raw 3, drwav_op.typed 2 4] _ () (by decide)

lemma drwav__seek_offsets_mem (r : Nat) :
    ∀ x ∈ drwav__seek_offsets r, 0 < x ∧ x ≤ INT_MAX := by
  induction r using Nat.strong_induction_on with
  | _ r ih =>
    rw [drwav__seek_offsets]
    split
    · simp
    · split
      · intro x hx
        rcases List.mem_cons.mp hx with h | h
        · subst h
          exact ⟨by simp [INT_MAX], le_rfl⟩
        · exact ih _ (by simp_all [INT_MAX]; omega) x h
      · intro x hx
        rcases List.mem_singleton.mp hx with rfl
        constructor <;> omega

lemma drwav__seek_offsets_sum (r : Nat) :
    (drwav__seek_offsets r).sum = r := by
  induction r using Nat.strong_induction_on with
  | _ r ih =>
    rw [drwav__seek_offsets]
    split
    · simp_all
    · split
      · rw [List.sum_cons, ih _ (by simp_all [INT_MAX]; omega)]
        omega
      · simp

lemma drwav__seek_forward_eq_drop :
    ∀ (n : Nat) (l : List Nat), drwav__seek_forward l n = l.drop n := by
  intro n
  induction n using Nat.strong_induction_on with
  | _ n ih =>
    intro l
    rw [drwav__seek_forward]
    split
    · simp_all
    · split
      · rw [ih _ (by simp_all [INT_MAX]; omega), List.drop_drop]
        have hI : INT_MAX = 2147483647 := rfl
        have hgt : n > INT_MAX := ‹n > INT_MAX›
        have hn : INT_MAX + (n - INT_MAX) = n := by omega
        rw [hn]
      · rfl

lemma drwav__seek_forward_eq_foldl :
    ∀ (n : Nat) (l : List Nat),
      drwav__seek_forward l n =
        (drwav__seek_offsets n).foldl (fun t o => t.drop o) l := by
  intro n
  induction n using Nat.strong_induction_on with
  | _ n ih =>
    intro l
    rw [drwav__seek_forward, drwav__seek_offsets]
    split
    · simp
    · split
      · rw [List.foldl_cons, ih _ (by simp_all [INT_MAX]; omega)]
      · simp

lemma drwav_seek_loop_zero (onSeek : σ → Int → Bool × σ) (s : σ) (R : Nat)
    (direction : Int) :
    drwav_seek_loop onSeek s R 0 direction = (R, s) := by
  rw [drwav_seek_loop]
  simp

lemma drwav_seek_loop_step (onSeek : σ → Int → Bool × σ) (s : σ) (R : Nat)
    (direction : Int) (offset : Nat) (h1 : offset ≠ 0) :
    drwav_seek_loop onSeek s R offset direction =
      drwav_seek_loop onSeek
        ((onSeek s (((min offset INT_MAX : Nat) : Int) * direction)).2)
        ((((R : Nat) : Int) -
            ((min offset INT_MAX : Nat) : Int) * direction) %
          (2 ^ 64 : Int)).toNat
        (offset - min offset INT_MAX) direction := by
  rw [drwav_seek_loop, if_neg h1]
  have hm : (if offset > INT_MAX then INT_MAX else offset) =
      min offset INT_MAX := by
    rw [min_comm, min_def]
    split <;> split <;> omega
  rw [hm]

lemma drwav_seek_loop_fst (onSeek : σ → Int → Bool × σ) :
    ∀ (offset : Nat) (s : σ) (R : Nat) (direction : Int), R < 2 ^ 64 →
      (drwav_seek_loop onSeek s R offset direction).1 =
        (((R : Int) - (offset : Int) * direction) % (2 ^ 64 : Int)).toNat := by
  intro offset
  induction offset using Nat.strong_induction_on with
  | _ offset ih =>
    intro s R direction hR
    rw [drwav_seek_loop]
    split
    · subst ‹offset = 0›
      simp only [Nat.cast_zero, zero_mul, sub_zero]
      omega
    · have hoff : ¬offset = 0 := ‹¬offset = 0›
      set o1 : Nat := if offset > INT_MAX then INT_MAX else offset with ho1
      have ho1le : o1 ≤ offset ∧ 0 < o1 := by
        rw [ho1]; constructor <;> (split <;> simp_all [INT_MAX]) <;> omega
      have hbr2 : (((R : Int) - (o1 : Int) * direction) % (2 ^ 64 : Int)).toNat
          < 2 ^ 64 := by
        have h1 : 0 ≤ ((R : Int) - (o1 : Int) * direction) % (2 ^ 64 : Int) :=
          Int.emod_nonneg _ (by norm_num)
        have h2 : ((R : Int) - (o1 : Int) * direction) % (2 ^ 64 : Int) <
            2 ^ 64 := Int.emod_lt_of_pos _ (by norm_num)
        omega
      rw [ih (offset - o1) (by omega) _ _ _ hbr2]
      have hcast : ((((R : Int) - (o1 : Int) * direction) %
          (2 ^ 64 : Int)).toNat : Int) =
          ((R : Int) - (o1 : Int) * direction) % (2 ^ 64 : Int) :=
        Int.toNat_of_nonneg (Int.emod_nonneg _ (by norm_num))
      have hsub : ((offset - o1 : Nat) : Int) = (offset : Int) - o1 := by
        omega
      have key : ∀ x y : Int, (x % (2 ^ 64 : Int) - y) % (2 ^ 64 : Int) =
          (x - y) % (2 ^ 64 : Int) := by
        intro x y
        rw [Int.sub_emod, Int.emod_emod_of_dvd x dvd_rfl, ← Int.sub_emod]
      rw [hcast, hsub, key]
      have hring : (R : Int) - (o1 : Int) * direction -
          ((offset : Int) - (o1 : Int)) * direction =
          (R : Int) - (offset : Int) * direction := by ring
      rw [hring]

lemma drwav_seek_loop_snd (onSeek : σ → Int → Bool × σ) :
    ∀ (offset : Nat) (s : σ) (R : Nat) (direction : Int),
      (drwav_seek_loop onSeek s R offset direction).2 =
        ((drwav__seek_offsets offset).map
            (fun x : Nat => (x : Int) * direction)).foldl
          (fun t o => (onSeek t o).2) s := by
  intro offset
  induction offset using Nat.strong_induction_on with
  | _ offset ih =>
    intro s R direction
    by_cases h1 : offset = 0
    · subst h1
      rw [drwav_seek_loop_zero, drwav__seek_offsets]
      simp
    · rw [drwav_seek_loop_step onSeek s R direction offset h1,
        drwav__seek_offsets, if_neg h1]
      have hI : INT_MAX = 2147483647 := rfl
      by_cases h2 : offset > INT_MAX
      · rw [if_pos h2]
        have hmin : min offset INT_MAX = INT_MAX := min_eq_right (by omega)
        rw [hmin, List.map_cons, List.foldl_cons, ih _ (by omega)]
      · rw [if_neg h2]
        have hmin : min offset INT_MAX = offset := min_eq_left (by omega)
        rw [hmin, Nat.sub_self, drwav_seek_loop_zero]
        simp

/-- The current byte position drwav_seek computes:
totalSampleCount * bytesPerSample - bytesRemaining. -/
def drwav_seek_current_pos (pWav : drwav) : Nat :=
  pWav.totalSampleCount * pWav.bytesPerSample - pWav.bytesRemaining

/-- The clamped target byte position of drwav_seek:
min sample (totalSampleCount - 1) times bytesPerSample. -/
def drwav_seek_target_pos (pWav : drwav) (sample : Nat) : Nat :=
  min sample (pWav.totalSampleCount - 1) * pWav.bytesPerSample

/-- The magnitude of the byte delta drwav_seek applies. -/
def drwav_seek_offset_mag (pWav : drwav) (sample : Nat) : Nat :=
  if drwav_seek_current_pos pWav < drwav_seek_target_pos pWav sample then
    drwav_seek_target_pos pWav sample - drwav_seek_current_pos pWav
  else drwav_seek_current_pos pWav - drwav_seek_target_pos pWav sample

/-- The sign of the byte delta drwav_seek applies. -/
def drwav_seek_dir (pWav : drwav) (sample : Nat) : Int :=
  if drwav_seek_current_pos pWav < drwav_seek_target_pos pWav sample then 1
  else -1

lemma drwav_seek_eq (onSeek : σ → Int → Bool × σ) (pWav : drwav) (s : σ)
    (sample : Nat) (h : pWav.totalSampleCount ≠ 0)
    (hbr : pWav.bytesRemaining ≤
      pWav.totalSampleCount * pWav.bytesPerSample)
    (hsz : pWav.totalSampleCount * pWav.bytesPerSample < 2 ^ 64) :
    drwav_seek onSeek pWav s sample =
      (1,
       { pWav with
           bytesRemaining :=
             (drwav_seek_loop onSeek s pWav.bytesRemaining
               (drwav_seek_offset_mag pWav sample)
               (drwav_seek_dir pWav sample)).1 },
       (drwav_seek_loop onSeek s pWav.bytesRemaining
         (drwav_seek_offset_mag pWav sample)
         (drwav_seek_dir pWav sample)).2) := by
  have h1 : (if sample ≥ pWav.totalSampleCount then
      pWav.totalSampleCount - 1 else sample) =
      min sample (pWav.totalSampleCount - 1) := by
    split <;> omega
  have h2 : pWav.totalSampleCount * pWav.bytesPerSample % 2 ^ 64 =
      pWav.totalSampleCount * pWav.bytesPerSample := Nat.mod_eq_of_lt hsz
  have h3 : pWav.bytesRemaining % 2 ^ 64 = pWav.bytesRemaining :=
    Nat.mod_eq_of_lt (by omega)
  have h4 : (pWav.totalSampleCount * pWav.bytesPerSample +
      (2 ^ 64 - pWav.bytesRemaining)) % 2 ^ 64 =
      pWav.totalSampleCount * pWav.bytesPerSample - pWav.bytesRemaining := by
    omega
  have hT : min sample (pWav.totalSampleCount - 1) * pWav.bytesPerSample ≤
      pWav.totalSampleCount * pWav.bytesPerSample :=
    Nat.mul_le_mul_right _ (le_trans (min_le_right _ _) (by omega))
  have h5 : min sample (pWav.totalSampleCount - 1) * pWav.bytesPerSample %
      2 ^ 64 = min sample (pWav.totalSampleCount - 1) * pWav.bytesPerSample :=
    Nat.mod_eq_of_lt (by omega)
  unfold drwav_seek
  rw [if_neg h]
  simp only [h1, h2, h3, h4, h5]
  unfold drwav_seek_offset_mag drwav_seek_dir drwav_seek_current_pos
    drwav_seek_target_pos
  split <;> rfl

/-- C2: drwav_seek is a successful no-op when totalSampleCount is 0;
otherwise it clamps the target to the last sample, applies the signed byte
delta between the current position (totalSampleCount * bytesPerSample -
bytesRemaining) and the clamped target position through repeated relative
seeks each of positive magnitude at most INT_MAX (summing to the whole
delta), updating bytesRemaining by the signed delta of each step, so that
afterwards bytesRemaining equals
(totalSampleCount - clampedIndex) * bytesPerSample. -/
theorem drwav_seek_clamps_and_updates (onSeek : σ → Int → Bool × σ)
    (pWav : drwav) (s : σ) (sample : Nat)
    (hbr : pWav.bytesRemaining ≤ pWav.totalSampleCount * pWav.bytesPerSample)
    (hsz : pWav.totalSampleCount * pWav.bytesPerSample < 2 ^ 64) :
    (pWav.totalSampleCount = 0 →
      drwav_seek onSeek pWav s sample = (1, pWav, s)) ∧
    (pWav.totalSampleCount ≠ 0 →
      (drwav_seek onSeek pWav s sample).1 = 1 ∧
      (drwav_seek onSeek pWav s sample).2.1.bytesRemaining =
        (pWav.totalSampleCount - min sample (pWav.totalSampleCount - 1)) *
          pWav.bytesPerSample ∧
      (drwav_seek onSeek pWav s sample).2.2 =
        ((drwav__seek_offsets (drwav_seek_offset_mag pWav sample)).map
            (fun x : Nat => (x : Int) * drwav_seek_dir pWav sample)).foldl
          (fun t o => (onSeek t o).2) s ∧
      (∀ x ∈ drwav__seek_offsets (drwav_seek_offset_mag pWav sample),
        0 < x ∧ x ≤ INT_MAX) ∧
      (drwav__seek_offsets (drwav_seek_offset_mag pWav sample)).sum =
        drwav_seek_offset_mag pWav sample) := by
  constructor
  · intro h0
    unfold drwav_seek
    rw [if_pos h0]
  · intro h
    rw [drwav_seek_eq onSeek pWav s sample h hbr hsz]
    refine ⟨rfl, ?_, ?_, drwav__seek_offsets_mem _, drwav__seek_offsets_sum _⟩
    · show (drwav_seek_loop onSeek s pWav.bytesRemaining
          (drwav_seek_offset_mag pWav sample)
          (drwav_seek_dir pWav sample)).1 = _
      rw [drwav_seek_loop_fst onSeek _ s _ _ (by omega)]
      have hT : min sample (pWav.totalSampleCount - 1) * pWav.bytesPerSample ≤
          pWav.totalSampleCount * pWav.bytesPerSample :=
        Nat.mul_le_mul_right _ (le_trans (min_le_right _ _) (by omega))
      have hsm : (pWav.totalSampleCount -
          min sample (pWav.totalSampleCount - 1)) * pWav.bytesPerSample =
          pWav.totalSampleCount * pWav.bytesPerSample -
            min sample (pWav.totalSampleCount - 1) * pWav.bytesPerSample :=
        Nat.sub_mul _ _ _
      rw [hsm]
      unfold drwav_seek_offset_mag drwav_seek_dir drwav_seek_current_pos
        drwav_seek_target_pos
      split <;> omega
    · show (drwav_seek_loop onSeek s pWav.bytesRemaining
          (drwav_seek_offset_mag pWav sample)
          (drwav_seek_dir pWav sample)).2 = _
      exact drwav_seek_loop_snd onSeek _ s _ _

/-- A concrete format block shared by the seek witnesses. -/
def fmt16 : drwav_fmt :=
  { formatTag := 1, channels := 1, sampleRate := 44100,
    avgBytesPerSec := 88200, blockAlign := 2, bitsPerSample := 16,
    extendedSize := 0, validBitsPerSample := 0, channelMask := 0,
    subFormat := List.replicate 16 0 }

/-- A concrete decoder shared by the seek witnesses: 10 samples of 2 bytes,
all 20 bytes still remaining. -/
def wav10 : drwav :=
  { fmt := fmt16, sampleRate := 44100, channels := 1, bitsPerSample := 16,
    bytesPerSample := 2, translatedFormatTag := 1, totalSampleCount := 10,
    bytesRemaining := 20 }

/-- Witness for C2: the theorem applied to the concrete decoder wav10 with
an always-failing seek callback and target sample 3. -/
theorem drwav_seek_clamps_and_updates_witness :
    (wav10.totalSampleCount = 0 →
      drwav_seek (fun (u : Unit) _ => (false, u)) wav10 () 3 = (1, wav10, ())) ∧
    (wav10.totalSampleCount ≠ 0 →
      (drwav_seek (fun (u : Unit) _ => (false, u)) wav10 () 3).1 = 1 ∧
      (drwav_seek (fun (u : Unit) _ => (false, u)) wav10 () 3).2.1.bytesRemaining =
        (wav10.totalSampleCount - min 3 (wav10.totalSampleCount - 1)) *
          wav10.bytesPerSample ∧
      (drwav_seek (fun (u : Unit) _ => (false, u)) wav10 () 3).2.2 =
        ((drwav__seek_offsets (drwav_seek_offset_mag wav10 3)).map
            (fun x : Nat => (x : Int) * drwav_seek_dir wav10 3)).foldl
          (fun t o => ((fun (u : Unit) _ => (false, u)) t o).2) () ∧
      (∀ x ∈ drwav__seek_offsets (drwav_seek_offset_mag wav10 3),
        0 < x ∧ x ≤ INT_MAX) ∧
      (drwav__seek_offsets (drwav_seek_offset_mag wav10 3)).sum =
        drwav_seek_offset_mag wav10 3) :=
  drwav_seek_clamps_and_updates (fun (u : Unit) _ => (false, u)) wav10 () 3
    (by decide) (by decide)

/-- C10: for a decoder with totalSampleCount > 0, drwav_seek returns
success no matter what the seek callback reports, and the resulting decoder
state is the same for any two callbacks and source states: the callback's
boolean results are ignored and bytesRemaining is updated by the full
delta even when an invocation reports failure. -/
theorem drwav_seek_ignores_callback_failures {τ : Type u}
    (onSeek : σ → Int → Bool × σ) (onSeek2 : τ → Int → Bool × τ)
    (pWav : drwav) (s : σ) (s2 : τ) (sample : Nat)
    (h : pWav.totalSampleCount ≠ 0) :
    (drwav_seek onSeek pWav s sample).1 = 1 ∧
    (drwav_seek onSeek pWav s sample).2.1 =
      (drwav_seek onSeek2 pWav s2 sample).2.1 := by
  have hfst : ∀ (offset : Nat) (u : σ) (v : τ) (R : Nat) (direction : Int),
      (drwav_seek_loop onSeek u R offset direction).1 =
        (drwav_seek_loop onSeek2 v R offset direction).1 := by
    intro offset
    induction offset using Nat.strong_induction_on with
    | _ offset ih =>
      intro u v R direction
      by_cases h1 : offset = 0
      · subst h1
        rw [drwav_seek_loop_zero, drwav_seek_loop_zero]
      · rw [drwav_seek_loop_step onSeek u R direction offset h1,
          drwav_seek_loop_step onSeek2 v R direction offset h1]
        have hI : INT_MAX = 2147483647 := rfl
        have hmin : 0 < min offset INT_MAX := by omega
        exact ih _ (by omega) _ _ _ _
  constructor
  · unfold drwav_seek
    split <;> rfl
  · unfold drwav_seek
    rw [if_neg h, if_neg h]
    show ({ pWav with bytesRemaining := _ } : drwav) = { pWav with bytesRemaining := _ }
    rw [hfst]

/-- Witness for C10: the theorem applied to wav10 with an always-failing
callback on one side and an always-succeeding callback on the other. -/
theorem drwav_seek_ignores_callback_failures_witness :
    (drwav_seek (fun (u : Unit) _ => (false, u)) wav10 () 7).1 = 1 ∧
    (drwav_seek (fun (u : Unit) _ => (false, u)) wav10 () 7).2.1 =
      (drwav_seek (fun (u : Unit) _ => (true, u)) wav10 () 7).2.1 :=
  drwav_seek_ignores_callback_failures (fun (u : Unit) _ => (false, u))
    (fun (u : Unit) _ => (true, u)) wav10 () () 7 (by decide)

lemma drwav__find_data_none (l : List Nat) (h : l.length < 8) :
    drwav__find_data l = none := by
  rw [drwav__find_data, dif_pos h]

lemma drwav__find_data_found (l : List Nat) (h8 : ¬l.length < 8)
    (hid : l.getD 0 0 = 100 ∧ l.getD 1 0 = 97 ∧ l.getD 2 0 = 116 ∧
      l.getD 3 0 = 97) :
    drwav__find_data l = some (drwav__read_u32 (l.drop 4), l.drop 8) := by
  rw [drwav__find_data, dif_neg h8, if_pos hid]

lemma drwav__find_data_skip (l : List Nat) (h8 : ¬l.length < 8)
    (hid : ¬(l.getD 0 0 = 100 ∧ l.getD 1 0 = 97 ∧ l.getD 2 0 = 116 ∧
      l.getD 3 0 = 97)) :
    drwav__find_data l =
      drwav__find_data ((l.drop 8).drop
        (if drwav__read_u32 (l.drop 4) % 2 ≠ 0 then
          drwav__read_u32 (l.drop 4) + 1
         else drwav__read_u32 (l.drop 4))) := by
  rw [drwav__find_data, dif_neg h8, if_neg hid]
  simp only [drwav__seek_forward_eq_drop]

lemma drwav__read_fmt_conditions (s : List Nat) (r : drwav_fmt × List Nat)
    (h : drwav__read_fmt s = some r) :
    (s.getD 0 0 = 102 ∧ s.getD 1 0 = 109 ∧ s.getD 2 0 = 116 ∧
      s.getD 3 0 = 32) ∧
    (drwav__read_u32 (s.drop 4) = 16 ∨ drwav__read_u32 (s.drop 4) = 18 ∨
      drwav__read_u32 (s.drop 4) = 40) ∧
    (drwav__read_u32 (s.drop 4) = 40 → drwav__read_u16 (s.drop 24) = 22) := by
  simp only [drwav__read_fmt] at h
  split at h
  · exact absurd h (by simp)
  · split at h
    · exact absurd h (by simp)
    · split at h
      · exact absurd h (by simp)
      · split at h
        · exact absurd h (by simp)
        · split at h
          · refine ⟨by tauto, by tauto, ?_⟩
            intro h40
            omega
          · split at h
            · refine ⟨by tauto, by tauto, ?_⟩
              intro h40
              omega
            · split at h
              · exact absurd h (by simp)
              · split at h
                · exact absurd h (by simp)
                · split at h
                  · exact absurd h (by simp)
                  · refine ⟨by tauto, by tauto, ?_⟩
                    intro h40
                    have hcb : ¬drwav__read_u16 (List.drop 24 s) ≠ 22 :=
                      ‹¬drwav__read_u16 (List.drop 24 s) ≠ 22›
                    omega

/-- C4: whenever drwav_open succeeds, the format chunk that was consumed
(the stream from offset 12) carried the id bytes of the 4-character string
of f, m, t and space, its declared little-endian 32-bit size was one of
16, 18 or 40, and when that size was 40 the 2-byte extension-size field
that follows the fixed 24-byte block equalled 22. -/
theorem drwav_open_requires_fmt_id_size_and_extension (stream : List Nat)
    (w : drwav) (h : drwav_open stream = some w) :
    ((stream.drop 12).getD 0 0 = 102 ∧ (stream.drop 12).getD 1 0 = 109 ∧
      (stream.drop 12).getD 2 0 = 116 ∧ (stream.drop 12).getD 3 0 = 32) ∧
    (drwav__read_u32 ((stream.drop 12).drop 4) = 16 ∨
      drwav__read_u32 ((stream.drop 12).drop 4) = 18 ∨
      drwav__read_u32 ((stream.drop 12).drop 4) = 40) ∧
    (drwav__read_u32 ((stream.drop 12).drop 4) = 40 →
      drwav__read_u16 ((stream.drop 12).drop 24) = 22) := by
  have hfmt : ∃ r, drwav__read_fmt (stream.drop 12) = some r := by
    unfold drwav_open at h
    split at h
    · exact absurd h (by simp)
    · split at h
      · exact absurd h (by simp)
      · split at h
        · exact absurd h (by simp)
        · split at h
          · exact absurd h (by simp)
          · split at h
            · exact absurd h (by simp)
            · next fmtv restv heq => exact ⟨(fmtv, restv), heq⟩
  obtain ⟨r, hr⟩ := hfmt
  exact drwav__read_fmt_conditions _ r hr

/-- A minimal valid wav byte stream: RIFF header, 16-byte format chunk
(mono, 44100 Hz, 16-bit PCM), then a data chunk of 4 bytes. -/
def wavStream16 : List Nat :=
  [82, 73, 70, 70, 36, 0, 0, 0, 87, 65, 86, 69,
   102, 109, 116, 32, 16, 0, 0, 0, 1, 0, 1, 0, 68, 172, 0, 0,
   136, 88, 1, 0, 2, 0, 16, 0,
   100, 97, 116, 97, 4, 0, 0, 0, 0, 0, 0, 0]

/-- The decoder produced by opening wavStream16. -/
def wav16 : drwav :=
  { fmt := fmt16, sampleRate := 44100, channels := 1, bitsPerSample := 16,
    bytesPerSample := 2, translatedFormatTag := 1, totalSampleCount := 2,
    bytesRemaining := 4 }

/-- Witness for C4: the theorem applied to the concrete stream
wavStream16, whose open succeeds. -/
theorem drwav_open_requires_fmt_id_size_and_extension_witness :
    ((wavStream16.drop 12).getD 0 0 = 102 ∧
      (wavStream16.drop 12).getD 1 0 = 109 ∧
      (wavStream16.drop 12).getD 2 0 = 116 ∧
      (wavStream16.drop 12).getD 3 0 = 32) ∧
    (drwav__read_u32 ((wavStream16.drop 12).drop 4) = 16 ∨
      drwav__read_u32 ((wavStream16.drop 12).drop 4) = 18 ∨
      drwav__read_u32 ((wavStream16.drop 12).drop 4) = 40) ∧
    (drwav__read_u32 ((wavStream16.drop 12).drop 4) = 40 →
      drwav__read_u16 ((wavStream16.drop 12).drop 24) = 22) :=
  drwav_open_requires_fmt_id_size_and_extension wavStream16 wav16 (by
    have h1 : drwav__read_fmt (wavStream16.drop 12) =
        some (fmt16, [100, 97, 116, 97, 4, 0, 0, 0, 0, 0, 0, 0]) := by
      decide
    have h2 : drwav__find_data [100, 97, 116, 97, 4, 0, 0, 0, 0, 0, 0, 0] =
        some (4, [0, 0, 0, 0]) := by
      rw [drwav__find_data_found _ (by decide) (by decide)]
      decide
    unfold drwav_open
    simp only [h1, h2]
    decide)

/-- C9: the chunk scanner fails when fewer than 8 header bytes remain;
it skips every chunk whose id is not the data id by advancing the declared
size plus one pad byte when that size is odd; the forward skip is performed
as the fold of relative seeks whose magnitudes are each positive, at most
INT_MAX, and sum to the whole (padded) skip; and when the scanner is
exhausted without finding a data chunk, drwav_open returns no decoder. -/
theorem drwav_open_chunk_skip_and_exhaustion :
    (∀ l : List Nat, l.length < 8 → drwav__find_data l = none) ∧
    (∀ l : List Nat, ¬l.length < 8 →
      ¬(l.getD 0 0 = 100 ∧ l.getD 1 0 = 97 ∧ l.getD 2 0 = 116 ∧
        l.getD 3 0 = 97) →
      drwav__find_data l =
        drwav__find_data ((l.drop 8).drop
          (if drwav__read_u32 (l.drop 4) % 2 ≠ 0 then
            drwav__read_u32 (l.drop 4) + 1
           else drwav__read_u32 (l.drop 4)))) ∧
    (∀ (l : List Nat) (n : Nat),
      drwav__seek_forward l n =
        (drwav__seek_offsets n).foldl (fun t o => t.drop o) l ∧
      (∀ x ∈ drwav__seek_offsets n, 0 < x ∧ x ≤ INT_MAX) ∧
      (drwav__seek_offsets n).sum = n) ∧
    (∀ (stream : List Nat) (fmtr : drwav_fmt × List Nat),
      drwav__read_fmt (stream.drop 12) = some fmtr →
      drwav__find_data fmtr.2 = none →
      drwav_open stream = none) := by
  refine ⟨drwav__find_data_none, drwav__find_data_skip, ?_, ?_⟩
  · intro l n
    exact ⟨drwav__seek_forward_eq_foldl n l, drwav__seek_offsets_mem n,
      drwav__seek_offsets_sum n⟩
  · intro stream fmtr hf hn
    obtain ⟨fmtv, restv⟩ := fmtr
    unfold drwav_open
    split
    · rfl
    · split
      · rfl
      · split
        · rfl
        · split
          · rfl
          · simp only [hf, hn]

/-- A wav byte stream whose chunk list never contains a data chunk: a valid
RIFF header and format chunk followed by 3 stray bytes, too few for a
chunk header. -/
def wavStreamNoData : List Nat :=
  [82, 73, 70, 70, 36, 0, 0, 0, 87, 65, 86, 69,
   102, 109, 116, 32, 16, 0, 0, 0, 1, 0, 1, 0, 68, 172, 0, 0,
   136, 88, 1, 0, 2, 0, 16, 0,
   1, 2, 3]

/-- Witness for C9: the scanner fails on a 3-byte remainder, and opening
the concrete stream with no data chunk returns no decoder. -/
theorem drwav_open_chunk_skip_and_exhaustion_witness :
    drwav__find_data [1, 2, 3] = none ∧
    drwav_open wavStreamNoData = none :=
  ⟨drwav_open_chunk_skip_and_exhaustion.1 [1, 2, 3] (by decide),
   drwav_open_chunk_skip_and_exhaustion.2.2.2 wavStreamNoData
     (fmt16, [1, 2, 3]) (by decide)
     (drwav_open_chunk_skip_and_exhaustion.1 [1, 2, 3] (by decide))⟩

/-- The format block of the channels-0 stream: channels declared 0,
blockAlign 4. -/
def fmtChZero : drwav_fmt :=
  { formatTag := 1, channels := 0, sampleRate := 44100,
    avgBytesPerSec := 88200, blockAlign := 4, bitsPerSample := 16,
    extendedSize := 0, validBitsPerSample := 0, channelMask := 0,
    subFormat := List.replicate 16 0 }

/-- A structurally valid wav byte stream that declares channels = 0 in its
format chunk, followed by a data chunk of 8 bytes. -/
def wavStreamChZero : List Nat :=
  [82, 73, 70, 70, 36, 0, 0, 0, 87, 65, 86, 69,
   102, 109, 116, 32, 16, 0, 0, 0, 1, 0, 0, 0, 68, 172, 0, 0,
   136, 88, 1, 0, 4, 0, 16, 0,
   100, 97, 116, 97, 8, 0, 0, 0]

/-- C5: the failing input for the channels = 0 guard.  The source has no
guard on fmt.channels: drwav_open reaches the division
blockAlign / channels with channels = 0 (undefined behaviour in C; total
Nat division in this model, yielding bytesPerSample = 0) and returns a
decoder instead of failing.  Evaluating the embedded drwav_open at the
concrete channels-0 stream produces a decoder with channels = 0 and
bytesPerSample = 0, so the open does not fail as the claim requires. -/
theorem drwav_open_channels_zero_not_guarded :
    drwav_open wavStreamChZero =
      some { fmt := fmtChZero, sampleRate := 44100, channels := 0,
             bitsPerSample := 16, bytesPerSample := 0,
             translatedFormatTag := 1, totalSampleCount := 0,
             bytesRemaining := 8 } := by
  have h1 : drwav__read_fmt (wavStreamChZero.drop 12) =
      some (fmtChZero, [100, 97, 116, 97, 8, 0, 0, 0]) := by decide
  have h2 : drwav__find_data [100, 97, 116, 97, 8, 0, 0, 0] =
      some (8, []) := by
    rw [drwav__find_data_found _ (by decide) (by decide)]
    decide
  unfold drwav_open
  simp only [h1, h2]
  decide
